import Mathlib

/-!
Verification of `m1-02-summary-functions.py`, a support-ticket validation and
summary module.  Python values relevant to the module are modelled by the
inductive `Value` (floats idealised as rationals), tickets by association
lists from field names to values, and Python dictionary operations by
association-list operations keyed by Python equality `pyEq`.
-/

/-- A Python value as used by the ticket module: `None`, booleans, integers,
floats (idealised as rationals) and strings. -/
inductive Value where
  | vNone : Value
  | vBool : Bool → Value
  | vInt : Int → Value
  | vFloat : ℚ → Value
  | vStr : String → Value
deriving DecidableEq, Repr

/-- Numeric reading of a value: Python treats `bool` as a numeric subtype of
`int`.  `none` for non-numeric values. -/
def toQNum : Value → Option ℚ
  | Value.vBool b => some (if b then 1 else 0)
  | Value.vInt n => some (n : ℚ)
  | Value.vFloat q => some q
  | _ => none

/-- Python `==` on the modelled values: numbers (bool/int/float) compare by
numeric value, everything else structurally; cross-kind comparisons are
`false`. -/
def pyEq (a b : Value) : Bool :=
  match toQNum a, toQNum b with
  | some x, some y => x = y
  | _, _ => a = b

/-- Python `isinstance(v, int)`: true for booleans and integers. -/
def isInstInt : Value → Bool
  | Value.vBool _ => true
  | Value.vInt _ => true
  | _ => false

/-- Python `isinstance(v, (int, float))`: true for booleans, integers and
floats. -/
def isInstNum : Value → Bool
  | Value.vBool _ => true
  | Value.vInt _ => true
  | Value.vFloat _ => true
  | _ => false

/-- The rational carried by a numeric value (`0` for non-numeric ones, which
never reach it). -/
def numVal (v : Value) : ℚ := (toQNum v).getD 0

/-- A ticket record: an association list from field names to values
(Python dict with string keys). -/
abbrev Ticket := List (String × Value)

/-- Python `dict.get(k)` on a ticket: value of the first binding of `k`. -/
def tget : Ticket → String → Option Value
  | [], _ => none
  | (k, v) :: rest, key => if k = key then some v else tget rest key

theorem pyEq_refl (a : Value) : pyEq a a = true := by
  cases a <;> simp [pyEq, toQNum]

theorem pyEq_symm {a b : Value} (h : pyEq a b = true) : pyEq b a = true := by
  cases a <;> cases b <;> simp_all [pyEq, toQNum]

theorem pyEq_trans {a b c : Value} (h1 : pyEq a b = true) (h2 : pyEq b c = true) :
    pyEq a c = true := by
  cases a <;> cases b <;> cases c <;> simp_all [pyEq, toQNum]

/-- Round-half-to-even on rationals, modelling Python `round` to an integer. -/
def roundHalfEven (q : ℚ) : ℤ :=
  if q - ⌊q⌋ < 1 / 2 then ⌊q⌋
  else if 1 / 2 < q - ⌊q⌋ then ⌊q⌋ + 1
  else if ⌊q⌋ % 2 = 0 then ⌊q⌋ else ⌊q⌋ + 1

/-- Python `round(q, 2)`: round to two decimal places, ties to even. -/
def round2 (q : ℚ) : ℚ := (roundHalfEven (q * 100) : ℚ) / 100

theorem roundHalfEven_nonneg {q : ℚ} (h : 0 ≤ q) : 0 ≤ roundHalfEven q := by
  have hf : (0 : ℤ) ≤ ⌊q⌋ := Int.floor_nonneg.mpr h
  unfold roundHalfEven
  split
  · exact hf
  · split
    · omega
    · split <;> omega

theorem roundHalfEven_le {q : ℚ} {B : ℤ} (h : q ≤ (B : ℚ)) : roundHalfEven q ≤ B := by
  have hfl : ⌊q⌋ ≤ B := by
    have := Int.floor_le_floor h
    simpa using this
  unfold roundHalfEven
  split
  · exact hfl
  · have hhalf : (1 : ℚ) / 2 ≤ q - ⌊q⌋ := by linarith [not_lt.mp (by assumption)]
    have hlt : (⌊q⌋ : ℚ) < q := by linarith
    have hltB : (⌊q⌋ : ℚ) < (B : ℚ) := lt_of_lt_of_le hlt h
    have : ⌊q⌋ < B := by exact_mod_cast hltB
    split
    · omega
    · split <;> omega

/-- Lookup in a Python-dict-as-association-list keyed by Python equality:
the value of the first entry whose key is `pyEq` to `c`. -/
def lookupVal {α : Type} (c : Value) : List (Value × α) → Option α
  | [] => none
  | (k, v) :: rest => if pyEq k c then some v else lookupVal c rest

/-- `t.get('category', 'Unknown')` in the aggregator functions. -/
def catOf (t : Ticket) : Value := (tget t "category").getD (Value.vStr "Unknown")

/-- `t.get('resolution_minutes', 0)` in `get_average_resolution_by_category`. -/
def minsOf (t : Ticket) : Value := (tget t "resolution_minutes").getD (Value.vInt 0)

/-- `t.get('priority', 'Low')` in `get_escalation_rates`. -/
def prioOf (t : Ticket) : Value := (tget t "priority").getD (Value.vStr "Low")

/-- `ticket.get('resolution_minutes')` in `find_invalid_resolutions`
(absent field reads as `None`). -/
def resVal (t : Ticket) : Value := (tget t "resolution_minutes").getD Value.vNone

/-- The loop of `validate_keys`: `for index, ticket in enumerate(tickets)`,
appending `index` when `not set(required_keys).issubset(ticket.keys())`;
`i` is the index of the first ticket of the remaining list. -/
def validateKeysFrom (required_keys : List String) (i : Nat) : List Ticket → List Nat
  | [] => []
  | t :: ts =>
      if required_keys.all fun k => (tget t k).isSome then
        validateKeysFrom required_keys (i + 1) ts
      else
        i :: validateKeysFrom required_keys (i + 1) ts

/-- `validate_keys(tickets, required_keys)`: indices of tickets missing at
least one required key. -/
def validate_keys (tickets : List Ticket) (required_keys : List String) : List Nat :=
  validateKeysFrom required_keys 0 tickets

/-- A diagnostic record produced by `find_invalid_resolutions`. -/
structure InvalidRecord where
  index : Nat
  ticket_id : Value
  invalid_value : Value
  issue_type : String
deriving DecidableEq, Repr

/-- `val is None or not isinstance(val, int)` for
`val = ticket.get('resolution_minutes')`. -/
def invalidRes (t : Ticket) : Bool :=
  resVal t = Value.vNone || !isInstInt (resVal t)

/-- The dictionary appended by `find_invalid_resolutions` for an invalid
ticket `t` at position `i`. -/
def mkInvalidRecord (i : Nat) (t : Ticket) : InvalidRecord :=
  { index := i
    ticket_id := (tget t "ticket_id").getD (Value.vStr "UNKNOWN")
    invalid_value := resVal t
    issue_type := if resVal t = Value.vNone then "Missing" else "Wrong Type" }

/-- The loop of `find_invalid_resolutions`, `i` being the index of the first
remaining ticket. -/
def findInvalidFrom (i : Nat) : List Ticket → List InvalidRecord
  | [] => []
  | t :: ts =>
      if invalidRes t then mkInvalidRecord i t :: findInvalidFrom (i + 1) ts
      else findInvalidFrom (i + 1) ts

/-- `find_invalid_resolutions(tickets)`: diagnostic records for tickets whose
`resolution_minutes` is `None` or not an integer. -/
def find_invalid_resolutions (tickets : List Ticket) : List InvalidRecord :=
  findInvalidFrom 0 tickets

/-- The Python dictionary pattern `if k not in d: d[k] = dflt` followed by an
in-place update of `d[k]`: get-or-insert `dflt` for `k`, then apply `upd` to
the entry (appended last on creation, as Python dicts keep insertion
order). -/
def updDict {α : Type} (d : List (Value × α)) (k : Value) (dflt : α) (upd : α → α) :
    List (Value × α) :=
  match d with
  | [] => [(k, upd dflt)]
  | (k0, v) :: rest =>
      if pyEq k0 k then (k0, upd v) :: rest
      else (k0, v) :: updDict rest k dflt upd

/-- The accumulation loop of `get_average_resolution_by_category`: tickets
with a non-numeric present `resolution_minutes` are skipped (`continue`);
otherwise `temp_stats[cat]` starts at `{'total': 0, 'count': 0}` and gets
`total += mins`, `count += 1`. -/
def avgStatsLoop : List Ticket → List (Value × ℚ × Nat) → List (Value × ℚ × Nat)
  | [], stats => stats
  | t :: ts, stats =>
      avgStatsLoop ts
        (if isInstNum (minsOf t) then
          updDict stats (catOf t) (0, 0) (fun y => (y.1 + numVal (minsOf t), y.2 + 1))
        else stats)

/-- The `temp_stats` dictionary after the accumulation loop. -/
def avgStats (tickets : List Ticket) : List (Value × ℚ × Nat) := avgStatsLoop tickets []

/-- `get_average_resolution_by_category(tickets)`: per-category average of
numeric `resolution_minutes`, rounded to 2 decimals (`0` on the zero-count
branch of the source). -/
def get_average_resolution_by_category (tickets : List Ticket) : List (Value × ℚ) :=
  (avgStats tickets).map fun p =>
    if 0 < p.2.2 then (p.1, round2 (p.2.1 / (p.2.2 : ℚ))) else (p.1, 0)

/-- `priority == 'Critical'` for `priority = t.get('priority', 'Low')`. -/
def isCriticalTicket (t : Ticket) : Bool := pyEq (prioOf t) (Value.vStr "Critical")

/-- The counting loop of `get_escalation_rates`, carrying `category_counts`
(where `category_counts[cat]` starts at `{'total': 0, 'critical': 0}` and
gets `total += 1`, `critical += is_critical`), `total_tickets` and
`total_critical`. -/
def escLoop : List Ticket → List (Value × Nat × Nat) → Nat → Nat →
    List (Value × Nat × Nat) × Nat × Nat
  | [], counts, total, crit => (counts, total, crit)
  | t :: ts, counts, total, crit =>
      escLoop ts
        (updDict counts (catOf t) (0, 0)
          (fun y => (y.1 + 1, y.2 + if isCriticalTicket t then 1 else 0)))
        (total + 1) (crit + if isCriticalTicket t then 1 else 0)

/-- The result structure of `get_escalation_rates`. -/
structure EscalationRates where
  overall_rate : ℚ
  by_category : List (Value × ℚ)
deriving DecidableEq, Repr

/-- `get_escalation_rates(tickets)`: percentage of `'Critical'`-priority
tickets overall and per category, rounded to 2 decimals. -/
def get_escalation_rates (tickets : List Ticket) : EscalationRates :=
  let res := escLoop tickets [] 0 0
  { overall_rate :=
      if 0 < res.2.1 then round2 ((res.2.2 : ℚ) / (res.2.1 : ℚ) * 100) else 0
    by_category :=
      res.1.filterMap fun p =>
        if 0 < p.2.1 then some (p.1, round2 ((p.2.2 : ℚ) / (p.2.1 : ℚ) * 100)) else none }

/-- The `meta` block of the final report. -/
structure ReportMeta where
  total_records : Nat
  status : String
deriving DecidableEq, Repr

/-- The structure returned by `generate_final_report`. -/
structure Report where
  meta : ReportMeta
  averages : List (Value × ℚ)
  escalations : EscalationRates
deriving DecidableEq, Repr

/-- `generate_final_report(tickets)`. -/
def generate_final_report (tickets : List Ticket) : Report :=
  { meta := { total_records := tickets.length, status := "Success" }
    averages := get_average_resolution_by_category tickets
    escalations := get_escalation_rates tickets }

/-- Tickets counted into category `c` by the averages aggregator: category
`pyEq` to `c` and a numeric (or absent, hence defaulted-to-`0`)
`resolution_minutes`. -/
def avgGroup (tickets : List Ticket) (c : Value) : List Ticket :=
  tickets.filter fun t => pyEq (catOf t) c && isInstNum (minsOf t)

/-- Sum of the (defaulted) `resolution_minutes` of a list of tickets. -/
def groupSum (g : List Ticket) : ℚ := (g.map fun t => numVal (minsOf t)).sum

/-- Tickets of category `c` (defaulting to `Unknown`), as grouped by
`get_escalation_rates`. -/
def catGroup (tickets : List Ticket) (c : Value) : List Ticket :=
  tickets.filter fun t => pyEq (catOf t) c

/-- Number of tickets with `priority == 'Critical'` in a list. -/
def critCount (g : List Ticket) : Nat := g.countP fun t => isCriticalTicket t

theorem lookupVal_updDict {α : Type} (d : List (Value × α)) (k : Value) (dflt : α)
    (upd : α → α) (c : Value) :
    lookupVal c (updDict d k dflt upd) =
      if pyEq k c then some (upd ((lookupVal c d).getD dflt)) else lookupVal c d := by
  induction d with
  | nil =>
      simp only [updDict, lookupVal]
      by_cases h : pyEq k c = true <;> simp [h]
  | cons hd tl ih =>
      obtain ⟨k0, v⟩ := hd
      by_cases h0 : pyEq k0 k = true
      · by_cases hc : pyEq k0 c = true
        · have hkc : pyEq k c = true := pyEq_trans (pyEq_symm h0) hc
          simp [updDict, lookupVal, h0, hc, hkc]
        · have hkc : pyEq k c = false := by
            cases hkc : pyEq k c
            · rfl
            · exact absurd (pyEq_trans h0 hkc) (by simp [hc])
          simp [updDict, lookupVal, h0, hc, hkc]
      · by_cases hc : pyEq k0 c = true
        · have hkc : pyEq k c = false := by
            cases hkc : pyEq k c
            · rfl
            · exact absurd (pyEq_symm (pyEq_trans hkc (pyEq_symm hc))) (by simp [h0])
          simp [updDict, lookupVal, h0, hc, hkc]
        · simp [updDict, lookupVal, h0, hc, ih]

theorem mem_updDict {α : Type} {d : List (Value × α)} {k : Value} {dflt : α} {upd : α → α}
    {p : Value × α} (hp : p ∈ updDict d k dflt upd) :
    (∃ q ∈ d, q.1 = p.1 ∧ (p.2 = upd q.2 ∨ p.2 = q.2)) ∨ p = (k, upd dflt) := by
  induction d with
  | nil =>
      simp only [updDict, List.mem_singleton] at hp
      exact Or.inr hp
  | cons hd tl ih =>
      obtain ⟨k0, v⟩ := hd
      by_cases h0 : pyEq k0 k = true
      · simp only [updDict, h0, if_pos, List.mem_cons] at hp
        rcases hp with h | h
        · subst h
          exact Or.inl ⟨(k0, v), List.mem_cons_self _ _, rfl, Or.inl rfl⟩
        · exact Or.inl ⟨p, List.mem_cons_of_mem _ h, rfl, Or.inr rfl⟩
      · simp only [updDict, h0, Bool.false_eq_true, if_neg, List.mem_cons,
          not_false_iff] at hp
        rcases hp with h | h
        · subst h
          exact Or.inl ⟨(k0, v), List.mem_cons_self _ _, rfl, Or.inr rfl⟩
        · rcases ih h with ⟨q, hq, h1, h2⟩ | h
          · exact Or.inl ⟨q, List.mem_cons_of_mem _ hq, h1, h2⟩
          · exact Or.inr h

theorem lookupVal_avgStatsLoop (ts : List Ticket) (s : List (Value × ℚ × Nat)) (c : Value) :
    lookupVal c (avgStatsLoop ts s) =
      match lookupVal c s with
      | some y => some (y.1 + groupSum (avgGroup ts c), y.2 + (avgGroup ts c).length)
      | none =>
          if (avgGroup ts c).isEmpty then none
          else some (groupSum (avgGroup ts c), (avgGroup ts c).length) := by
  induction ts generalizing s with
  | nil =>
      cases hs : lookupVal c s <;> simp [avgStatsLoop, avgGroup, groupSum, hs]
  | cons t ts ih =>
      by_cases hnum : isInstNum (minsOf t) = true
      · by_cases hcat : pyEq (catOf t) c = true
        · have hfil : avgGroup (t :: ts) c = t :: avgGroup ts c := by
            simp [avgGroup, List.filter_cons, hcat, hnum]
          have hloop : avgStatsLoop (t :: ts) s =
              avgStatsLoop ts
                (updDict s (catOf t) (0, 0) (fun y => (y.1 + numVal (minsOf t), y.2 + 1))) := by
            simp [avgStatsLoop, hnum]
          rw [hloop, ih, lookupVal_updDict, if_pos hcat]
          cases hs : lookupVal c s with
          | none =>
              simp only [hs, Option.getD_none, hfil, groupSum, List.map_cons, List.sum_cons,
                List.length_cons, List.isEmpty_cons, Bool.false_eq_true, if_false,
                Option.some.injEq, Prod.mk.injEq]
              constructor <;> [ring; omega]
          | some y =>
              simp only [hs, Option.getD_some, hfil, groupSum, List.map_cons, List.sum_cons,
                List.length_cons, Option.some.injEq, Prod.mk.injEq]
              constructor <;> [ring; omega]
        · have hfil : avgGroup (t :: ts) c = avgGroup ts c := by
            simp [avgGroup, List.filter_cons, hcat]
          have hloop : avgStatsLoop (t :: ts) s =
              avgStatsLoop ts
                (updDict s (catOf t) (0, 0) (fun y => (y.1 + numVal (minsOf t), y.2 + 1))) := by
            simp [avgStatsLoop, hnum]
          rw [hloop, ih, lookupVal_updDict, if_neg (by simp [hcat]), hfil]
      · have hfil : avgGroup (t :: ts) c = avgGroup ts c := by
          simp [avgGroup, List.filter_cons, hnum]
        have hloop : avgStatsLoop (t :: ts) s = avgStatsLoop ts s := by
          simp [avgStatsLoop, hnum]
        rw [hloop, ih, hfil]

theorem lookupVal_avgFinal (l : List (Value × ℚ × Nat)) (c : Value) :
    lookupVal c
        (l.map fun p => if 0 < p.2.2 then (p.1, round2 (p.2.1 / (p.2.2 : ℚ))) else (p.1, 0)) =
      (lookupVal c l).map fun y => if 0 < y.2 then round2 (y.1 / (y.2 : ℚ)) else 0 := by
  induction l with
  | nil => simp [lookupVal]
  | cons hd tl ih =>
      obtain ⟨k, y⟩ := hd
      simp only [List.map_cons]
      by_cases hy : 0 < y.2
      · rw [if_pos hy]
        by_cases hc : pyEq k c = true <;> simp [lookupVal, hc, hy, ih]
      · rw [if_neg hy]
        by_cases hc : pyEq k c = true <;> simp [lookupVal, hc, hy, ih]

theorem lookupVal_avg_eq (tickets : List Ticket) (c : Value) :
    lookupVal c (get_average_resolution_by_category tickets) =
      if (avgGroup tickets c).isEmpty then none
      else some (round2 (groupSum (avgGroup tickets c) / ((avgGroup tickets c).length : ℚ))) := by
  unfold get_average_resolution_by_category avgStats
  rw [lookupVal_avgFinal, lookupVal_avgStatsLoop]
  by_cases hg : (avgGroup tickets c).isEmpty = true
  · simp [lookupVal, hg]
  · have hpos : 0 < (avgGroup tickets c).length := by
      cases hne : avgGroup tickets c with
      | nil => rw [hne] at hg; simp at hg
      | cons a g => simp [hne]
    simp [lookupVal, hg, hpos]

/-- C1: `get_average_resolution_by_category` groups tickets by their
`category` field (defaulting to `Unknown`); a ticket with absent
`resolution_minutes` contributes `0` and is counted, a present non-numeric
value excludes the ticket from both sum and count of its group, and every
produced entry maps its category to `round(sum / count, 2)` — looked up by
Python equality, category `c` is present iff its counted group is nonempty,
with value the rounded average of that group. -/
theorem avg_resolution_by_category_correct (tickets : List Ticket) (c : Value) :
    lookupVal c (get_average_resolution_by_category tickets) =
      if (avgGroup tickets c).isEmpty then none
      else some (round2 (groupSum (avgGroup tickets c) / ((avgGroup tickets c).length : ℚ))) :=
  lookupVal_avg_eq tickets c

theorem escLoop_total (ts : List Ticket) (counts : List (Value × Nat × Nat))
    (total crit : Nat) : (escLoop ts counts total crit).2.1 = total + ts.length := by
  induction ts generalizing counts total crit with
  | nil => simp [escLoop]
  | cons t ts ih =>
      simp only [escLoop, ih, List.length_cons]
      omega

theorem escLoop_crit (ts : List Ticket) (counts : List (Value × Nat × Nat))
    (total crit : Nat) : (escLoop ts counts total crit).2.2 = crit + critCount ts := by
  induction ts generalizing counts total crit with
  | nil => simp [escLoop, critCount]
  | cons t ts ih =>
      simp only [escLoop, ih, critCount, List.countP_cons]
      by_cases h : isCriticalTicket t = true
      · simp [h]
        omega
      · simp [h]

theorem lookupVal_escLoop (ts : List Ticket) (counts : List (Value × Nat × Nat))
    (total crit : Nat) (c : Value) :
    lookupVal c (escLoop ts counts total crit).1 =
      match lookupVal c counts with
      | some y => some (y.1 + (catGroup ts c).length, y.2 + critCount (catGroup ts c))
      | none =>
          if (catGroup ts c).isEmpty then none
          else some ((catGroup ts c).length, critCount (catGroup ts c)) := by
  induction ts generalizing counts total crit with
  | nil => cases hs : lookupVal c counts <;> simp [escLoop, catGroup, critCount, hs]
  | cons t ts ih =>
      simp only [escLoop]
      by_cases hcat : pyEq (catOf t) c = true
      · have hfil : catGroup (t :: ts) c = t :: catGroup ts c := by
          simp [catGroup, List.filter_cons, hcat]
        rw [ih, lookupVal_updDict, if_pos hcat]
        cases hs : lookupVal c counts with
        | none =>
            simp only [hs, Option.getD_none, hfil, List.length_cons, List.isEmpty_cons,
              Bool.false_eq_true, if_false, Option.some.injEq, Prod.mk.injEq, critCount,
              List.countP_cons]
            by_cases h : isCriticalTicket t = true <;> simp [h] <;> omega
        | some y =>
            simp only [hs, Option.getD_some, hfil, List.length_cons, Option.some.injEq,
              Prod.mk.injEq, critCount, List.countP_cons]
            by_cases h : isCriticalTicket t = true <;> simp [h] <;> omega
      · have hfil : catGroup (t :: ts) c = catGroup ts c := by
          simp [catGroup, List.filter_cons, hcat]
        rw [ih, lookupVal_updDict, if_neg (by simp [hcat]), hfil]

theorem escLoop_mem (ts : List Ticket) (counts : List (Value × Nat × Nat))
    (total crit : Nat) (p : Value × Nat × Nat)
    (hp : p ∈ (escLoop ts counts total crit).1) :
    (∃ q ∈ counts, q.1 = p.1 ∧ q.2.1 ≤ p.2.1) ∨ (1 ≤ p.2.1 ∧ ∃ t ∈ ts, catOf t = p.1) := by
  induction ts generalizing counts total crit with
  | nil => exact Or.inl ⟨p, by simpa [escLoop] using hp, rfl, le_refl _⟩
  | cons t ts ih =>
      simp only [escLoop] at hp
      rcases ih _ _ _ hp with ⟨q, hq, h1, h2⟩ | ⟨h1, t', ht', h2⟩
      · rcases mem_updDict hq with ⟨r, hr, hr1, hr2⟩ | hq2
        · refine Or.inl ⟨r, hr, hr1.trans h1, ?_⟩
          rcases hr2 with h | h
          · have : q.2.1 = r.2.1 + 1 := by rw [h]
            omega
          · rw [h] at h2
            exact h2
        · right
          have hq1 : q.1 = catOf t := by rw [hq2]
          have hq21 : q.2.1 = 1 := by rw [hq2]
          exact ⟨by omega, t, List.mem_cons_self _ _, by rw [← h1, hq1]⟩
      · exact Or.inr ⟨h1, t', List.mem_cons_of_mem _ ht', h2⟩

theorem escByCat_eq_map (l : List (Value × Nat × Nat)) (h : ∀ p ∈ l, 0 < p.2.1) :
    (l.filterMap fun p =>
        if 0 < p.2.1 then some (p.1, round2 ((p.2.2 : ℚ) / (p.2.1 : ℚ) * 100)) else none) =
      l.map fun p => (p.1, round2 ((p.2.2 : ℚ) / (p.2.1 : ℚ) * 100)) := by
  induction l with
  | nil => simp
  | cons hd tl ih =>
      have hhd := h hd (List.mem_cons_self _ _)
      simp only [List.filterMap_cons, List.map_cons, if_pos hhd]
      rw [ih fun p hp => h p (List.mem_cons_of_mem _ hp)]

theorem lookupVal_escFinal (l : List (Value × Nat × Nat)) (c : Value) :
    lookupVal c (l.map fun p => (p.1, round2 ((p.2.2 : ℚ) / (p.2.1 : ℚ) * 100))) =
      (lookupVal c l).map fun y => round2 ((y.2 : ℚ) / (y.1 : ℚ) * 100) := by
  induction l with
  | nil => simp [lookupVal]
  | cons hd tl ih =>
      obtain ⟨k, y⟩ := hd
      by_cases hc : pyEq k c = true <;> simp [lookupVal, hc, ih]

/-- C2: `get_escalation_rates` counts a ticket as critical exactly when its
`priority` field (defaulting to `Low` when absent, which never counts)
equals `Critical`; `overall_rate` is `round(critical/total*100, 2)` (`0.0`
for an empty sequence), and `by_category` maps each category (defaulting to
`Unknown`) present among the tickets to its own rate computed and rounded the
same way. -/
theorem escalation_rates_correct (tickets : List Ticket) (c : Value) :
    ((get_escalation_rates tickets).overall_rate =
      if tickets.isEmpty then 0
      else round2 ((critCount tickets : ℚ) / (tickets.length : ℚ) * 100))
    ∧ (lookupVal c (get_escalation_rates tickets).by_category =
        if (catGroup tickets c).isEmpty then none
        else some (round2
          ((critCount (catGroup tickets c) : ℚ) / ((catGroup tickets c).length : ℚ) * 100)))
    ∧ (∀ t : Ticket, tget t "priority" = none → isCriticalTicket t = false) := by
  have htot : (escLoop tickets [] 0 0).2.1 = tickets.length := by
    simpa using escLoop_total tickets [] 0 0
  have hcrit : (escLoop tickets [] 0 0).2.2 = critCount tickets := by
    simpa using escLoop_crit tickets [] 0 0
  have hpos : ∀ p ∈ (escLoop tickets [] 0 0).1, 0 < p.2.1 := by
    intro p hp
    rcases escLoop_mem tickets [] 0 0 p hp with ⟨q, hq, _⟩ | ⟨h1, _⟩
    · simp at hq
    · omega
  refine ⟨?_, ?_, ?_⟩
  · simp only [get_escalation_rates, htot, hcrit]
    cases tickets with
    | nil => simp [critCount]
    | cons t ts => simp
  · simp only [get_escalation_rates]
    rw [escByCat_eq_map _ hpos, lookupVal_escFinal, lookupVal_escLoop]
    simp only [lookupVal]
    by_cases hg : (catGroup tickets c).isEmpty = true
    · simp [hg]
    · simp [hg]
  · intro t h
    show pyEq (prioOf t) (Value.vStr "Critical") = false
    rw [prioOf, h]
    decide

theorem round2_nonneg {q : ℚ} (h : 0 ≤ q) : 0 ≤ round2 q := by
  unfold round2
  apply div_nonneg _ (by norm_num)
  exact_mod_cast roundHalfEven_nonneg (by positivity)

theorem round2_le_100 {q : ℚ} (h : q ≤ 100) : round2 q ≤ 100 := by
  unfold round2
  rw [div_le_iff₀ (by norm_num : (0 : ℚ) < 100)]
  have h1 : roundHalfEven (q * 100) ≤ (10000 : ℤ) := by
    apply roundHalfEven_le
    push_cast
    linarith
  have h2 : ((roundHalfEven (q * 100) : ℤ) : ℚ) ≤ ((10000 : ℤ) : ℚ) := by
    exact_mod_cast h1
  push_cast at h2 ⊢
  linarith

/-- C8: the `overall_rate` returned by `get_escalation_rates` always lies in
`[0, 100]`, and on the empty ticket sequence `get_escalation_rates` returns
rate `0.0` with an empty `by_category` while
`get_average_resolution_by_category` returns the empty mapping. -/
theorem overall_rate_in_range_and_empty_cases (tickets : List Ticket) :
    0 ≤ (get_escalation_rates tickets).overall_rate
    ∧ (get_escalation_rates tickets).overall_rate ≤ 100
    ∧ get_escalation_rates [] = { overall_rate := 0, by_category := [] }
    ∧ get_average_resolution_by_category [] = [] := by
  have htot : (escLoop tickets [] 0 0).2.1 = tickets.length := by
    simpa using escLoop_total tickets [] 0 0
  have hcrit : (escLoop tickets [] 0 0).2.2 = critCount tickets := by
    simpa using escLoop_crit tickets [] 0 0
  have hle : critCount tickets ≤ tickets.length := List.countP_le_length _
  refine ⟨?_, ?_, rfl, rfl⟩
  · simp only [get_escalation_rates, htot, hcrit]
    by_cases hl : 0 < tickets.length
    · rw [if_pos hl]
      apply round2_nonneg
      positivity
    · rw [if_neg hl]
  · simp only [get_escalation_rates, htot, hcrit]
    by_cases hl : 0 < tickets.length
    · rw [if_pos hl]
      apply round2_le_100
      have hlen : (0 : ℚ) < (tickets.length : ℚ) := by exact_mod_cast hl
      have hdiv : (critCount tickets : ℚ) / (tickets.length : ℚ) ≤ 1 := by
        rw [div_le_one hlen]
        exact_mod_cast hle
      nlinarith
    · rw [if_neg hl]
      norm_num

theorem mem_findInvalidFrom (ts : List Ticket) (n : Nat) (e : InvalidRecord) :
    e ∈ findInvalidFrom n ts ↔
      ∃ j t, ts[j]? = some t ∧ invalidRes t = true ∧ e = mkInvalidRecord (n + j) t := by
  induction ts generalizing n with
  | nil => simp [findInvalidFrom]
  | cons t ts ih =>
      by_cases hv : invalidRes t = true
      · simp only [findInvalidFrom, if_pos hv, List.mem_cons, ih]
        constructor
        · rintro (rfl | ⟨j, t', hj, hv', he⟩)
          · exact ⟨0, t, by simp, hv, by simp⟩
          · exact ⟨j + 1, t', by simpa using hj, hv', by rw [he]; congr 1; omega⟩
        · rintro ⟨j, t', hj, hv', he⟩
          cases j with
          | zero =>
              left
              simp only [List.getElem?_cons_zero, Option.some.injEq] at hj
              subst hj
              simpa using he
          | succ j =>
              right
              exact ⟨j, t', by simpa using hj, hv', by rw [he]; congr 1; omega⟩
      · simp only [findInvalidFrom, if_neg hv, ih]
        constructor
        · rintro ⟨j, t', hj, hv', he⟩
          exact ⟨j + 1, t', by simpa using hj, hv', by rw [he]; congr 1; omega⟩
        · rintro ⟨j, t', hj, hv', he⟩
          cases j with
          | zero =>
              simp only [List.getElem?_cons_zero, Option.some.injEq] at hj
              subst hj
              exact absurd hv' hv
          | succ j =>
              exact ⟨j, t', by simpa using hj, hv', by rw [he]; congr 1; omega⟩

theorem findInvalidFrom_index_bounds (ts : List Ticket) (n : Nat) :
    ∀ e ∈ findInvalidFrom n ts, n ≤ e.index ∧ e.index < n + ts.length := by
  induction ts generalizing n with
  | nil => simp [findInvalidFrom]
  | cons t ts ih =>
      intro e he
      by_cases hv : invalidRes t = true
      · rw [findInvalidFrom, if_pos hv] at he
        rcases List.mem_cons.mp he with rfl | he'
        · simp only [mkInvalidRecord, List.length_cons]
          omega
        · have := ih (n + 1) e he'
          simp only [List.length_cons]
          omega
      · rw [findInvalidFrom, if_neg hv] at he
        have := ih (n + 1) e he
        simp only [List.length_cons]
        omega

theorem findInvalidFrom_pairwise (ts : List Ticket) (n : Nat) :
    List.Pairwise (fun a b => a < b) ((findInvalidFrom n ts).map InvalidRecord.index) := by
  induction ts generalizing n with
  | nil => simp [findInvalidFrom]
  | cons t ts ih =>
      by_cases hv : invalidRes t = true
      · rw [findInvalidFrom, if_pos hv]
        simp only [List.map_cons, List.pairwise_cons]
        refine ⟨?_, ih (n + 1)⟩
        intro b hb
        rcases List.mem_map.mp hb with ⟨e, he, rfl⟩
        have := (findInvalidFrom_index_bounds ts (n + 1) e he).1
        simp only [mkInvalidRecord]
        omega
      · rw [findInvalidFrom, if_neg hv]
        exact ih (n + 1)

/-- C4: `find_invalid_resolutions` returns exactly one diagnostic entry, in
input order (strictly increasing indices), per ticket whose
`resolution_minutes` is `None` (including absent) or not an integer; each
entry is the record built from the ticket at its index: the ticket's
position, its `ticket_id` (or `UNKNOWN`), the raw offending value, and
`issue_type` equal to `Missing` iff the value was `None`, else
`Wrong Type`. -/
theorem find_invalid_resolutions_correct (tickets : List Ticket) :
    List.Pairwise (fun a b => a < b)
      ((find_invalid_resolutions tickets).map InvalidRecord.index)
    ∧ (∀ (i : Nat) (t : Ticket), tickets[i]? = some t →
        (invalidRes t = true ↔ mkInvalidRecord i t ∈ find_invalid_resolutions tickets))
    ∧ (∀ e ∈ find_invalid_resolutions tickets,
        ∃ t, tickets[e.index]? = some t ∧ e = mkInvalidRecord e.index t) := by
  refine ⟨findInvalidFrom_pairwise tickets 0, ?_, ?_⟩
  · intro i t hit
    constructor
    · intro hv
      exact (mem_findInvalidFrom tickets 0 _).mpr ⟨i, t, hit, hv, by rw [Nat.zero_add]⟩
    · intro hm
      rcases (mem_findInvalidFrom tickets 0 _).mp hm with ⟨j, t', hj, hv', he⟩
      have hidx : i = 0 + j := by
        simpa [mkInvalidRecord] using congrArg InvalidRecord.index he
      have hji : i = j := by omega
      subst hji
      rw [hit, Option.some.injEq] at hj
      rw [hj]
      exact hv'
  · intro e he
    rcases (mem_findInvalidFrom tickets 0 _).mp he with ⟨j, t', hj, hv', he'⟩
    have hidx : e.index = 0 + j := by
      simpa [mkInvalidRecord] using congrArg InvalidRecord.index he'
    refine ⟨t', ?_, ?_⟩
    · rw [hidx, Nat.zero_add]
      exact hj
    · rw [hidx]
      exact he'

theorem mem_validateKeysFrom (ts : List Ticket) (req : List String) (n i : Nat) :
    i ∈ validateKeysFrom req n ts ↔
      ∃ j t, ts[j]? = some t ∧ (req.all fun k => (tget t k).isSome) = false ∧ i = n + j := by
  induction ts generalizing n with
  | nil => simp [validateKeysFrom]
  | cons t ts ih =>
      by_cases hv : (req.all fun k => (tget t k).isSome) = true
      · simp only [validateKeysFrom, if_pos hv, ih]
        constructor
        · rintro ⟨j, t', hj, hv', hi⟩
          exact ⟨j + 1, t', by simpa using hj, hv', by omega⟩
        · rintro ⟨j, t', hj, hv', hi⟩
          cases j with
          | zero =>
              simp only [List.getElem?_cons_zero, Option.some.injEq] at hj
              subst hj
              rw [hv] at hv'
              simp at hv'
          | succ j =>
              exact ⟨j, t', by simpa using hj, hv', by omega⟩
      · have hv' : (req.all fun k => (tget t k).isSome) = false := by
          cases h : req.all fun k => (tget t k).isSome
          · rfl
          · exact absurd h hv
        simp only [validateKeysFrom, if_neg hv, List.mem_cons, ih]
        constructor
        · rintro (rfl | ⟨j, t', hj, hw, hi⟩)
          · exact ⟨0, t, by simp, hv', by omega⟩
          · exact ⟨j + 1, t', by simpa using hj, hw, by omega⟩
        · rintro ⟨j, t', hj, hw, hi⟩
          cases j with
          | zero =>
              left
              omega
          | succ j =>
              right
              exact ⟨j, t', by simpa using hj, hw, by omega⟩

theorem validateKeysFrom_lower (ts : List Ticket) (req : List String) (n : Nat) :
    ∀ i ∈ validateKeysFrom req n ts, n ≤ i := by
  intro i hi
  rcases (mem_validateKeysFrom ts req n i).mp hi with ⟨j, t, _, _, hi⟩
  omega

theorem validateKeysFrom_pairwise (ts : List Ticket) (req : List String) (n : Nat) :
    List.Pairwise (fun a b => a < b) (validateKeysFrom req n ts) := by
  induction ts generalizing n with
  | nil => simp [validateKeysFrom]
  | cons t ts ih =>
      by_cases hv : (req.all fun k => (tget t k).isSome) = true
      · rw [validateKeysFrom, if_pos hv]
        exact ih (n + 1)
      · rw [validateKeysFrom, if_neg hv]
        rw [List.pairwise_cons]
        refine ⟨?_, ih (n + 1)⟩
        intro b hb
        have := validateKeysFrom_lower ts req (n + 1) b hb
        omega

/-- C5: `validate_keys` returns a strictly ascending sequence of indices, each
below the length of the ticket sequence, and an index `i` appears in the
output iff ticket `i` lacks at least one required key among its own keys
(presence only: any value, including `None`, satisfies the check). -/
theorem validate_keys_correct (tickets : List Ticket) (req : List String) :
    List.Pairwise (fun a b => a < b) (validate_keys tickets req)
    ∧ (∀ i ∈ validate_keys tickets req, i < tickets.length)
    ∧ (∀ i : Nat, i ∈ validate_keys tickets req ↔
        ∃ t, tickets[i]? = some t ∧ ∃ k ∈ req, tget t k = none) := by
  refine ⟨validateKeysFrom_pairwise tickets req 0, ?_, ?_⟩
  · intro i hi
    rcases (mem_validateKeysFrom tickets req 0 i).mp hi with ⟨j, t, hj, _, hij⟩
    rcases List.getElem?_eq_some.mp hj with ⟨hlt, _⟩
    omega
  · intro i
    simp only [validate_keys]
    rw [mem_validateKeysFrom]
    constructor
    · rintro ⟨j, t, hj, hall, hij⟩
      refine ⟨t, by rw [hij, Nat.zero_add]; exact hj, ?_⟩
      by_contra hnone
      push_neg at hnone
      have : (req.all fun k => (tget t k).isSome) = true := by
        rw [List.all_eq_true]
        intro k hk
        rcases Option.ne_none_iff_isSome.mp (hnone k hk) with h
        exact h
      rw [this] at hall
      simp at hall
    · rintro ⟨t, ht, k, hk, hnone⟩
      refine ⟨i, t, ht, ?_, by omega⟩
      cases hall : req.all fun kk => (tget t kk).isSome
      · rfl
      · rw [List.all_eq_true] at hall
        have := hall k hk
        rw [hnone] at this
        simp at this

/-- C6: a ticket whose `resolution_minutes` value is a boolean is never
reported by `find_invalid_resolutions` (booleans satisfy Python's
`isinstance(val, int)`). -/
theorem boolean_resolution_not_flagged (tickets : List Ticket) (i : Nat) (t : Ticket)
    (b : Bool) (hget : tickets[i]? = some t)
    (hres : tget t "resolution_minutes" = some (Value.vBool b)) :
    ((find_invalid_resolutions tickets).all fun e => e.index != i) = true := by
  rw [List.all_eq_true]
  intro e he
  rcases (mem_findInvalidFrom tickets 0 e).mp he with ⟨j, t', hj, hv', he'⟩
  have hidx : e.index = 0 + j := by
    simpa [mkInvalidRecord] using congrArg InvalidRecord.index he'
  rw [bne_iff_ne, hidx, Nat.zero_add]
  intro hji
  subst hji
  rw [hget, Option.some.injEq] at hj
  subst hj
  rw [invalidRes, resVal, hres] at hv'
  simp [isInstInt] at hv'

theorem avgStatsLoop_mem (ts : List Ticket) (s : List (Value × ℚ × Nat))
    (p : Value × ℚ × Nat) (hp : p ∈ avgStatsLoop ts s) :
    (∃ q ∈ s, q.1 = p.1 ∧ q.2.2 ≤ p.2.2) ∨
      (1 ≤ p.2.2 ∧ ∃ t ∈ ts, catOf t = p.1 ∧ isInstNum (minsOf t) = true) := by
  induction ts generalizing s with
  | nil => exact Or.inl ⟨p, by simpa [avgStatsLoop] using hp, rfl, le_refl _⟩
  | cons t ts ih =>
      simp only [avgStatsLoop] at hp
      by_cases hnum : isInstNum (minsOf t) = true
      · rw [if_pos hnum] at hp
        rcases ih _ hp with ⟨q, hq, h1, h2⟩ | ⟨h1, t', ht', h2, h3⟩
        · rcases mem_updDict hq with ⟨r, hr, hr1, hr2⟩ | hq2
          · refine Or.inl ⟨r, hr, hr1.trans h1, ?_⟩
            rcases hr2 with h | h
            · have : q.2.2 = r.2.2 + 1 := by rw [h]
              omega
            · rw [h] at h2
              exact h2
          · right
            have hq1 : q.1 = catOf t := by rw [hq2]
            have hq22 : q.2.2 = 1 := by rw [hq2]
            exact ⟨by omega, t, List.mem_cons_self _ _, by rw [← h1, hq1], hnum⟩
        · exact Or.inr ⟨h1, t', List.mem_cons_of_mem _ ht', h2, h3⟩
      · rw [if_neg hnum] at hp
        rcases ih _ hp with h | ⟨h1, t', ht', h2, h3⟩
        · exact Or.inl h
        · exact Or.inr ⟨h1, t', List.mem_cons_of_mem _ ht', h2, h3⟩

/-- C10: every key of the mapping returned by
`get_average_resolution_by_category` is the category of at least one ticket
whose `resolution_minutes` is numeric (int, float, bool, or
absent-defaulted-to-0), every accumulated group has count at least 1 (so the
zero-count branch assigning average `0` is unreachable and the output equals
the count-positive branch applied everywhere), and a category all of whose
tickets have present non-numeric values is absent from the output. -/
theorem avg_groups_nonempty (tickets : List Ticket) :
    ((avgStats tickets).all fun p =>
        decide (1 ≤ p.2.2) &&
          tickets.any fun t => pyEq (catOf t) p.1 && isInstNum (minsOf t)) = true
    ∧ get_average_resolution_by_category tickets =
        (avgStats tickets).map (fun p => (p.1, round2 (p.2.1 / (p.2.2 : ℚ))))
    ∧ (∀ c : Value,
        (∀ t ∈ tickets, (pyEq (catOf t) c && isInstNum (minsOf t)) = false) →
        lookupVal c (get_average_resolution_by_category tickets) = none) := by
  have hmem : ∀ p ∈ avgStats tickets,
      1 ≤ p.2.2 ∧ ∃ t ∈ tickets, catOf t = p.1 ∧ isInstNum (minsOf t) = true := by
    intro p hp
    rcases avgStatsLoop_mem tickets [] p hp with ⟨q, hq, _⟩ | h
    · simp at hq
    · exact h
  refine ⟨?_, ?_, ?_⟩
  · rw [List.all_eq_true]
    intro p hp
    rcases hmem p hp with ⟨h1, t, ht, h2, h3⟩
    rw [Bool.and_eq_true]
    refine ⟨decide_eq_true h1, ?_⟩
    rw [List.any_eq_true]
    refine ⟨t, ht, ?_⟩
    rw [Bool.and_eq_true]
    exact ⟨by rw [h2]; exact pyEq_refl _, h3⟩
  · unfold get_average_resolution_by_category
    apply List.map_congr_left
    intro p hp
    rw [if_pos (by have := (hmem p hp).1; omega : 0 < p.2.2)]
  · intro c hc
    rw [lookupVal_avg_eq]
    have hnil : avgGroup tickets c = [] := by
      apply List.filter_eq_nil_iff.mpr
      intro t ht
      simp [hc t ht]
    rw [hnil]
    rfl

/-- C7: `generate_final_report` returns a structure whose `meta` field is
exactly `{total_records: len(tickets), status: "Success"}` (status is
`"Success"` for every input), whose `averages` field equals
`get_average_resolution_by_category` on the same tickets, and whose
`escalations` field equals `get_escalation_rates` on the same tickets. -/
theorem generate_final_report_fields (tickets : List Ticket) :
    (generate_final_report tickets).meta.total_records = tickets.length
    ∧ (generate_final_report tickets).meta.status = "Success"
    ∧ (generate_final_report tickets).averages = get_average_resolution_by_category tickets
    ∧ (generate_final_report tickets).escalations = get_escalation_rates tickets :=
  ⟨rfl, rfl, rfl, rfl⟩

/-- C3 counterexample: for `tickets = [{'resolution_minutes': 'bad'}]`,
`get_average_resolution_by_category` returns the empty mapping — in
particular `'Unknown'` is NOT mapped to average `0`, contrary to the claim:
the skipped ticket never creates its group. -/
theorem scenario_D_no_unknown_entry :
    get_average_resolution_by_category [[("resolution_minutes", Value.vStr "bad")]] = []
    ∧ lookupVal (Value.vStr "Unknown")
        (get_average_resolution_by_category [[("resolution_minutes", Value.vStr "bad")]])
      ≠ some 0 := by
  constructor
  · rfl
  · intro h
    exact Option.noConfusion h

/-- C3 (amended): for `tickets = [{'resolution_minutes': 'bad'}]`,
`find_invalid_resolutions` returns exactly one entry with issue type
`Wrong Type` and invalid value `'bad'`, and
`get_average_resolution_by_category` excludes the ticket entirely, returning
the empty mapping with no entry for `'Unknown'`. -/
theorem scenario_D_correct :
    find_invalid_resolutions [[("resolution_minutes", Value.vStr "bad")]] =
      [{ index := 0, ticket_id := Value.vStr "UNKNOWN",
         invalid_value := Value.vStr "bad", issue_type := "Wrong Type" }]
    ∧ get_average_resolution_by_category [[("resolution_minutes", Value.vStr "bad")]] = [] :=
  ⟨rfl, rfl⟩

/-- Witness for C2: the hypotheses of `escalation_rates_correct` are
satisfiable at a concrete input (a ticket without a `priority` field is not
critical). -/
theorem escalation_rates_correct_witness : isCriticalTicket [] = false :=
  (escalation_rates_correct [] Value.vNone).2.2 [] rfl

/-- Witness for C4 at a concrete input: the ticket with a string-valued
`resolution_minutes` produces its diagnostic record. -/
theorem find_invalid_resolutions_correct_witness :
    mkInvalidRecord 0 [("resolution_minutes", Value.vStr "bad")] ∈
      find_invalid_resolutions [[("resolution_minutes", Value.vStr "bad")]] :=
  ((find_invalid_resolutions_correct [[("resolution_minutes", Value.vStr "bad")]]).2.1 0
      [("resolution_minutes", Value.vStr "bad")] (by simp)).mp (by decide)

/-- Witness for C5 at a concrete input: the empty ticket at index 1 is
reported for the required key `a`. -/
theorem validate_keys_correct_witness :
    1 ∈ validate_keys [[("a", Value.vInt 1)], []] ["a"] :=
  ((validate_keys_correct [[("a", Value.vInt 1)], []] ["a"]).2.2 1).mpr
    ⟨[], by simp, "a", List.mem_cons_self _ _, rfl⟩

/-- Witness for C6 at a concrete input: a boolean `resolution_minutes` is
not flagged. -/
theorem boolean_resolution_not_flagged_witness :
    ((find_invalid_resolutions [[("resolution_minutes", Value.vBool true)]]).all
        fun e => e.index != 0) = true :=
  boolean_resolution_not_flagged [[("resolution_minutes", Value.vBool true)]] 0
    [("resolution_minutes", Value.vBool true)] true (by simp) rfl

/-- Witness for C10 at a concrete input: a category with no numeric-valued
ticket is absent from the averages output. -/
theorem avg_groups_nonempty_witness :
    lookupVal (Value.vStr "A")
      (get_average_resolution_by_category [[("resolution_minutes", Value.vNone)]]) = none :=
  (avg_groups_nonempty [[("resolution_minutes", Value.vNone)]]).2.2 (Value.vStr "A")
    (by decide)

/-- C9: a ticket whose `resolution_minutes` is a floating-point value is
reported by `find_invalid_resolutions` with issue type `Wrong Type`, yet
`get_average_resolution_by_category` counts that same ticket into the group
of its category (so it enters both the sum and the count): the validator's
notion of a valid value (integer only) is strictly narrower than the
aggregator's (integer or float). -/
theorem float_resolution_flagged_but_averaged (tickets : List Ticket) (i : Nat)
    (t : Ticket) (q : ℚ) (hget : tickets[i]? = some t)
    (hres : tget t "resolution_minutes" = some (Value.vFloat q)) :
    mkInvalidRecord i t ∈ find_invalid_resolutions tickets
    ∧ (mkInvalidRecord i t).issue_type = "Wrong Type"
    ∧ t ∈ avgGroup tickets (catOf t) := by
  have hval : resVal t = Value.vFloat q := by rw [resVal, hres]; rfl
  have hmins : minsOf t = Value.vFloat q := by rw [minsOf, hres]; rfl
  have hinv : invalidRes t = true := by simp [invalidRes, hval, isInstInt]
  refine ⟨?_, ?_, ?_⟩
  · exact (mem_findInvalidFrom tickets 0 _).mpr ⟨i, t, hget, hinv, by rw [Nat.zero_add]⟩
  · simp [mkInvalidRecord, hval]
  · rw [avgGroup, List.mem_filter]
    refine ⟨?_, ?_⟩
    · rcases List.getElem?_eq_some.mp hget with ⟨hl, he⟩
      exact he ▸ List.getElem_mem hl
    · rw [Bool.and_eq_true]
      exact ⟨pyEq_refl _, by rw [hmins]; rfl⟩

/-- Witness for C9 at a concrete input: `resolution_minutes = 2.5` is both
flagged as `Wrong Type` and counted into the averages. -/
theorem float_resolution_flagged_but_averaged_witness :
    mkInvalidRecord 0 [("resolution_minutes", Value.vFloat (5 / 2))] ∈
      find_invalid_resolutions [[("resolution_minutes", Value.vFloat (5 / 2))]]
    ∧ (mkInvalidRecord 0 [("resolution_minutes", Value.vFloat (5 / 2))]).issue_type =
        "Wrong Type"
    ∧ [("resolution_minutes", Value.vFloat (5 / 2))] ∈
        avgGroup [[("resolution_minutes", Value.vFloat (5 / 2))]]
          (catOf [("resolution_minutes", Value.vFloat (5 / 2))]) :=
  float_resolution_flagged_but_averaged [[("resolution_minutes", Value.vFloat (5 / 2))]] 0
    [("resolution_minutes", Value.vFloat (5 / 2))] (5 / 2) (by simp) rfl
